import Mathlib

/-!
Verification development for the m micro-framework (src/m/__init__.py).

The Python module is shallowly embedded below.  Pure pieces become Lean
functions; the small amounts of in-place mutation (assignment of the
parsed-parameters map onto the request, appending to filter/route lists,
storing extensions) become explicit state passing: an operation that in
Python mutates an object here returns the updated object.  Exceptions
become Except values over the error taxonomy MError.

Notes on modelling choices, kept close to the source:

  * The route-rule compiler in the source emits a regular-expression text
    and compiles it with re.compile.  Here the compiled pattern is kept in
    structured form: a list of elements, one per literal character of the
    rule and one per brace-delimited parameter specification.  A parameter
    element carries the parameter name and its type tag; its matching
    semantics fragAccepts is the semantics of the corresponding pattern
    fragment from the PATTERNS table of the source.  The end anchor the
    source appends, together with the start anchoring of re.match, becomes
    the requirement that the element list consume the whole candidate
    string.  Rules whose literal part contains regex metacharacters, and
    candidate paths containing a trailing newline (which the end anchor of
    the Python regex engine would tolerate), are outside this model; no
    claim depends on either.
  * The word-character class of the regex engine is modelled over ASCII:
    letters, digits and the underscore.
  * The float cast of the source parses decimal text to a machine float;
    it is modelled as the exact rational value of the decimal literal.  No
    claim exercises a float value.
  * Handlers and filter hooks are functions over an abstract context type
    C (the Python code passes the Application itself; nothing in the
    claims depends on the context being the application) and an abstract
    response type Rs.
  * Configuration loading and the JSON body decode touch the filesystem
    and external parsers; no claim mentions them and they are omitted.
-/

namespace M

/-- Word character of the regex class backslash-w, modelled over ASCII. -/
def wordChar (c : Char) : Bool :=
  c.isAlphanum || c == '_'

/-- At least one character, all decimal digits. -/
def digits1 (l : List Char) : Bool :=
  !l.isEmpty && l.all Char.isDigit

/-- Semantics of the fragment of the int tag: an optional sign followed by
one or more digits. -/
def intLex : List Char → Bool
  | '+' :: rest => digits1 rest
  | '-' :: rest => digits1 rest
  | l => digits1 l

/-- Digits, a dot, digits; used by the float fragment after the sign. -/
def floatCore (l : List Char) : Bool :=
  let d1 := l.takeWhile Char.isDigit
  match l.dropWhile Char.isDigit with
  | '.' :: frac => !d1.isEmpty && digits1 frac
  | _ => false

/-- Semantics of the fragment of the float tag. -/
def floatLex : List Char → Bool
  | '+' :: rest => floatCore rest
  | '-' :: rest => floatCore rest
  | l => floatCore l

/-- Acceptance semantics of the pattern fragments of the PATTERNS table of
the source, per type tag.  The str fragment requires one character that is
not a slash followed by at least one more character, none of the following
characters being a newline; word requires one or more word characters; any
requires one or more non-newline characters. -/
def fragAccepts (tag : String) (chunk : List Char) : Bool :=
  match tag, chunk with
  | "str", c :: rest => c != '/' && !rest.isEmpty && rest.all (fun d => d != '\n')
  | "word", l => !l.isEmpty && l.all wordChar
  | "any", l => !l.isEmpty && l.all (fun d => d != '\n')
  | "int", l => intLex l
  | "float", l => floatLex l
  | _, _ => false

/-- The PATTERNS table of the source: type tag to pattern fragment text.
Lookup of an unknown tag yields none (a KeyError in the source). -/
def PATTERNS (tag : String) : Option String :=
  if tag = "str" then some "[^/].+"
  else if tag = "word" then some "\\w+"
  else if tag = "any" then some ".+"
  else if tag = "int" then some "[+-]?\\d+"
  else if tag = "float" then some "[+-]?\\d+\\.\\d+"
  else none

/-- Numeric value of a digit list. -/
def digitsToNat (l : List Char) : Nat :=
  l.foldl (fun a c => a * 10 + (c.toNat - '0'.toNat)) 0

/-- Integer parse as the int cast of the source performs it on captured
text: optional sign, then digits. -/
def parseIntS (s : String) : Option Int :=
  match s.data with
  | '+' :: rest => if digits1 rest then some (Int.ofNat (digitsToNat rest)) else none
  | '-' :: rest => if digits1 rest then some (-(Int.ofNat (digitsToNat rest))) else none
  | l => if digits1 l then some (Int.ofNat (digitsToNat l)) else none

/-- Value of an unsigned decimal literal digits dot digits. -/
def floatVal (l : List Char) : Option Rat :=
  let d1 := l.takeWhile Char.isDigit
  match l.dropWhile Char.isDigit with
  | '.' :: frac =>
    if !d1.isEmpty && digits1 frac then
      some ((digitsToNat d1 : Rat) + (digitsToNat frac : Rat) / ((10 : Rat) ^ frac.length))
    else none
  | _ => none

/-- Decimal parse for the float cast, modelled as an exact rational. -/
def parseFloatS (s : String) : Option Rat :=
  match s.data with
  | '+' :: rest => floatVal rest
  | '-' :: rest => (floatVal rest).map Neg.neg
  | l => floatVal l

/-- A cast path-parameter value.  castFail marks the error a cast raises
on text outside its domain; it is unreachable for text captured by the
corresponding fragment. -/
inductive Value where
  | text (s : String)
  | intv (n : Int)
  | floatv (q : Rat)
  | castFail (raw : String)
deriving DecidableEq

/-- The CASTS table of the source: type tag to value-casting rule. -/
def CASTS (tag : String) : Option (String → Value) :=
  if tag = "str" then some Value.text
  else if tag = "word" then some Value.text
  else if tag = "any" then some Value.text
  else if tag = "int" then
    some fun v =>
      match parseIntS v with
      | some n => Value.intv n
      | none => Value.castFail v
  else if tag = "float" then
    some fun v =>
      match parseFloatS v with
      | some q => Value.floatv q
      | none => Value.castFail v
  else none

/-- One element of a compiled route pattern: a literal character of the
rule, or a named capture with a type tag. -/
inductive RElem where
  | lit (c : Char)
  | cap (name : String) (tag : String)
deriving DecidableEq

/-- String-keyed association list with the update semantics of a Python
dict assignment: an existing key keeps its position and gets the new
value, a new key is appended. -/
def dictInsert {β : Type} : List (String × β) → String → β → List (String × β)
  | [], k, v => [(k, v)]
  | (k', v') :: rest, k, v =>
    if k' = k then (k, v) :: rest else (k', v') :: dictInsert rest k v

/-- Lookup in a string-keyed association list. -/
def dictGet {β : Type} : List (String × β) → String → Option β
  | [], _ => none
  | (k', v) :: rest, k => if k' = k then some v else dictGet rest k

/-- The error taxonomy of the specification.  The source raises plain
exceptions; the spec names them MalformedRouteRule, UnknownParameterType,
InvalidFilter and NotFound. -/
inductive MError where
  | malformedRouteRule
  | unknownParameterType
  | invalidFilter
  | notFound (detail : String)
deriving DecidableEq

/-- Whether an Except value is a success. -/
def exceptIsOk {ε α : Type} : Except ε α → Bool
  | .ok _ => true
  | .error _ => false

/-- Split a character list at every colon, with the semantics of the
split operation the source applies to the specification text: splitting
the empty text yields one empty part, and every separator starts a new
part. -/
def splitColon : List Char → List (List Char)
  | [] => [[]]
  | c :: rest =>
    let r := splitColon rest
    if c = ':' then [] :: r
    else
      match r with
      | [] => [[c]]
      | h :: t => (c :: h) :: t

/-- String form of splitColon. -/
def splitSep (s : String) : List String :=
  (splitColon s.data).map String.mk

/-- Router._spec_parse of the source: split the brace-delimited text on
the colon separator; more than one separator is an error; one separator
gives name and explicit tag, none gives the default tag str; the tag is
then looked up in PATTERNS (and CASTS, which has the same key set), an
unknown tag being an error.  Returns the parameter name and its tag. -/
def specParse (src : String) : Except MError (String × String) :=
  match splitSep src with
  | [n] =>
    if (PATTERNS "str").isSome && (CASTS "str").isSome then .ok (n, "str")
    else .error .unknownParameterType
  | [n, t] =>
    if (PATTERNS t).isSome && (CASTS t).isSome then .ok (n, t)
    else .error .unknownParameterType
  | _ => .error .malformedRouteRule

/-- The explicit type tag of a specification text, defaulting to str. -/
def specTag (src : String) : String :=
  match splitSep src with
  | [_, t] => t
  | _ => "str"

/-- The scanning loop of Router._rule_parse: walk the rule, tracking
whether the position is inside a brace-delimited specification; outside
braces characters become literal pattern elements; a closing brace parses
the accumulated specification into a capture element and records the cast
tag in the cast table with dict-overwrite semantics. -/
def scan : List Char → Bool → List Char → List RElem → List (String × String) →
    Except MError (List RElem × List (String × String))
  | [], _, _, pat, casts => .ok (pat, casts)
  | c :: rest, isSp, sa, pat, casts =>
    if isSp = false ∧ c = '{' then
      scan rest true sa pat casts
    else if isSp = true ∧ c = '}' then
      match specParse (String.mk sa) with
      | .error e => .error e
      | .ok (name, tag) =>
        scan rest false [] (pat ++ [.cap name tag]) (dictInsert casts name tag)
    else if isSp then
      scan rest true (sa ++ [c]) pat casts
    else
      scan rest false sa (pat ++ [.lit c]) casts

/-- Router._rule_parse of the source: compiled pattern elements plus the
parameter-name to cast-tag table.  The end anchor the source appends is
realised by matchElems consuming the whole candidate. -/
def ruleParse (rule : String) : Except MError (List RElem × List (String × String)) :=
  scan rule.data false [] [] []

/-- The brace-delimited specification texts the scanning loop extracts
from a rule, in order; same recursion scheme as scan. -/
def scanSpecs : List Char → Bool → List Char → List String
  | [], _, _ => []
  | c :: rest, isSp, sa =>
    if isSp = false ∧ c = '{' then
      scanSpecs rest true sa
    else if isSp = true ∧ c = '}' then
      String.mk sa :: scanSpecs rest false []
    else if isSp then
      scanSpecs rest true (sa ++ [c])
    else
      scanSpecs rest false sa

/-- The specification texts of a rule. -/
def ruleSpecs (rule : String) : List String :=
  scanSpecs rule.data false []

/-- Candidate chunk lengths in the greedy order of the regex engine:
longest first, down to one character. -/
def downFrom : Nat → List Nat
  | 0 => []
  | n + 1 => (n + 1) :: downFrom n

/-- Matching a compiled pattern against a candidate string, with the
leftmost-greedy semantics of the regex engine of the source: a literal
element consumes its character, a capture element consumes the longest
fragment-accepted chunk that lets the remaining elements consume the
remaining characters, and the whole candidate must be consumed (start
anchoring of re.match plus the appended end anchor).  Returns the named
captures in order of appearance.  The first argument is fuel bounding
the number of elements processed, making the recursion structural. -/
def matchElemsF : Nat → List RElem → List Char → Option (List (String × String))
  | _, [], s => if s.isEmpty then some [] else none
  | 0, _ :: _, _ => none
  | fuel + 1, .lit c :: es, s =>
    match s with
    | [] => none
    | x :: xs => if x = c then matchElemsF fuel es xs else none
  | fuel + 1, .cap n tag :: es, s =>
    (downFrom s.length).findSome? fun k =>
      if fragAccepts tag (s.take k) then
        (matchElemsF fuel es (s.drop k)).map fun rest => (n, String.mk (s.take k)) :: rest
      else none

/-- Matching with the fuel set to the element count, which every step of
matchElemsF consumes one unit of, so it never runs out. -/
def matchElems (es : List RElem) (s : List Char) : Option (List (String × String)) :=
  matchElemsF es.length es s

/-- Apply the per-parameter cast table of a route to one captured value,
as the match loop of the source does via route.casts. -/
def castsApply (casts : List (String × String)) (k v : String) : Value :=
  match dictGet casts k with
  | some tag =>
    match CASTS tag with
    | some f => f v
    | none => Value.castFail v
  | none => Value.castFail v

/-- The request wrapper: method, path and host of the inbound request,
plus the mutable parsed-parameters map (request.args in the source).
Headers, body and query data play no role in any claim. -/
structure Request where
  method : String
  path : String
  host : String
  args : List (String × Value)

/-- The Filter class of the source: the two hooks, with identity defaults
in the source.  isFilterInstance models the nominal isinstance test the
Router constructor performs; an object that is not a Filter instance can
still carry hook attributes (duck typing), which is exactly what the
constructor check distinguishes from. -/
structure Filter (C Rq Rs : Type) where
  isFilterInstance : Bool
  before_request : C → Rq → Rq
  after_request : C → Rq → Rs → Rs

/-- A filter with both hooks at their identity defaults, as Filter()
constructs in the source. -/
def defaultFilter (C Rq Rs : Type) : Filter C Rq Rs :=
  ⟨true, fun _ r => r, fun _ _ s => s⟩

/-- The Route record of the source: compiled pattern, allowed methods,
per-parameter cast table (stored as tags), handler. -/
structure Route (C Rs : Type) where
  pattern : List RElem
  methods : List String
  casts : List (String × String)
  handler : C → Request → Rs

/-- The Router: path-prefix string (pfx models the prefix option of the
source), optional domain restriction, ordered filter list, ordered route
list.  The domain restriction is an abstract host predicate standing for
the compiled domain regex matched from the start of the host. -/
structure Router (C Rs : Type) where
  pfx : String
  domain : Option (String → Bool)
  filters : List (Filter C Request Rs)
  routes : List (Route C Rs)

/-- The default HTTP method set of Router.route, with the non-standard
singular OPTION token of the source. -/
def defaultMethods : List String :=
  ["GET", "POST", "PUT", "PATCH", "DELETE", "OPTION"]

/-- The filter-validation loop of the Router constructor: every supplied
filter must be a Filter instance, otherwise construction raises. -/
def initFilters {C Rq Rs : Type} : List (Filter C Rq Rs) → Except MError (List (Filter C Rq Rs))
  | [] => .ok []
  | fl :: rest =>
    if fl.isFilterInstance then (initFilters rest).map (fl :: ·)
    else .error .invalidFilter

/-- Router construction with the filters option validated. -/
def routerInit {C Rs : Type} (pfx : String) (domain : Option (String → Bool))
    (filters : List (Filter C Request Rs)) : Except MError (Router C Rs) :=
  (initFilters filters).map fun fls => ⟨pfx, domain, fls, []⟩

/-- Router.add_filter of the source: append, no capability check. -/
def Router.add_filter {C Rs : Type} (rt : Router C Rs) (fl : Filter C Request Rs) :
    Router C Rs :=
  { rt with filters := rt.filters ++ [fl] }

/-- Router.before_request of the source: wrap a plain hook function as a
Filter whose after hook keeps its identity default, and append it. -/
def Router.before_request {C Rs : Type} (rt : Router C Rs) (fn : C → Request → Request) :
    Router C Rs :=
  Router.add_filter rt ⟨true, fn, fun _ _ s => s⟩

/-- Router.after_request of the source, symmetric to before_request. -/
def Router.after_request {C Rs : Type} (rt : Router C Rs)
    (fn : C → Request → Rs → Rs) : Router C Rs :=
  Router.add_filter rt ⟨true, fun _ r => r, fn⟩

/-- Router.route / Router._route of the source: compile the rule and
append the Route; a compilation error is raised at registration time.
The source also returns the handler unchanged for decorator use. -/
def Router.route {C Rs : Type} (rt : Router C Rs) (rule : String)
    (methodsOpt : Option (List String)) (handler : C → Request → Rs) :
    Except MError (Router C Rs) :=
  let methods := methodsOpt.getD defaultMethods
  match ruleParse rule with
  | .error e => .error e
  | .ok (pat, casts) =>
    .ok { rt with routes := rt.routes ++ [⟨pat, methods, casts, handler⟩] }

/-- Router._domain_match of the source: passes when no domain restriction
was set, otherwise the domain pattern must match the host from its
beginning. -/
def domainOk {C Rs : Type} (rt : Router C Rs) (req : Request) : Bool :=
  match rt.domain with
  | none => true
  | some p => p req.host

/-- Replace the first occurrence of p in s by the empty string, as
path.replace of the source with count one does; the empty pattern leaves
the string unchanged. -/
def dropOcc : List Char → List Char → List Char
  | [], _ => []
  | c :: cs, p =>
    if p.isPrefixOf (c :: cs) then (c :: cs).drop p.length
    else c :: dropOcc cs p

/-- String form of dropOcc. -/
def replaceFirst (s p : String) : String :=
  if p.data.isEmpty then s else String.mk (dropOcc s.data p.data)

/-- Router._apply_filter of the source: thread the request through every
before hook in registration order, run the handler, thread the response
through every after hook in reverse registration order; the after hooks
receive the fully threaded request. -/
def Router.applyFilterFn {C Rs : Type} (rt : Router C Rs) (handler : C → Request → Rs) :
    C → Request → Rs :=
  fun ctx request =>
    let request := rt.filters.foldl (fun r fl => fl.before_request ctx r) request
    let response := handler ctx request
    (rt.filters.reverse).foldl (fun resp fl => fl.after_request ctx request resp) response

/-- The route loop of Router.match: first route whose method set contains
the request method and whose compiled pattern matches the prefix-stripped
path wins; its captures are cast and assigned as the parameters map of
the request, overwriting any prior map, and its handler is returned
wrapped in the filter chain of the router.  The possibly updated request
is returned alongside, modelling the in-place mutation of the source. -/
def matchRoutes {C Rs : Type} (rt : Router C Rs) :
    List (Route C Rs) → Request → Request × Option (C → Request → Rs)
  | [], req => (req, none)
  | route :: rest, req =>
    if route.methods.contains req.method then
      match matchElems route.pattern (replaceFirst req.path rt.pfx).data with
      | some caps =>
        ({ req with args := caps.map fun p => (p.1, castsApply route.casts p.1 p.2) },
          some (Router.applyFilterFn rt route.handler))
      | none => matchRoutes rt rest req
    else matchRoutes rt rest req

/-- Router.match of the source: domain test, then prefix test (a literal
starts-with test), then the route loop. -/
def Router.matchReq {C Rs : Type} (rt : Router C Rs) (req : Request) :
    Request × Option (C → Request → Rs) :=
  if domainOk rt req && List.isPrefixOf rt.pfx.data req.path.data then
    matchRoutes rt rt.routes req
  else (req, none)

/-- An extension instance as register_extension sees it: its concrete
type name, and whether it satisfies the Extension protocol. -/
structure ExtInstance where
  className : String
  hasInit : Bool
deriving DecidableEq

/-- Modelled from the spec: the Extension base class lives in module
m.ext, whose source is not in the repository; only its importer is.  Per
section 4.6 of the spec a component satisfies the Extension protocol
exactly when it exposes the initialize(application) operation. -/
def satisfiesExtension (i : ExtInstance) : Bool :=
  i.hasInit

/-- The Application: ordered routers, application-level filters, and the
extension registry keyed by concrete type name.  The configuration tree
and residual construction options of the source play no role in any
claim and are omitted. -/
structure Application (C Rs : Type) where
  routers : List (Router C Rs)
  filters : List (Filter C Request Rs)
  extensions : List (String × ExtInstance)

/-- Application.add_router of the source. -/
def Application.add_router {C Rs : Type} (app : Application C Rs) (rt : Router C Rs) :
    Application C Rs :=
  { app with routers := app.routers ++ [rt] }

/-- Application.add_filter of the source. -/
def Application.add_filter {C Rs : Type} (app : Application C Rs)
    (fl : Filter C Request Rs) : Application C Rs :=
  { app with filters := app.filters ++ [fl] }

/-- Application.register_extension of the source: when the instance
satisfies the Extension protocol, its one-time initialization is invoked
and the instance is stored under its concrete type name, replacing any
previous holder of that key; otherwise nothing happens.  The returned
list is the log of initialization calls performed, one entry per call. -/
def registerExtension {C Rs : Type} (app : Application C Rs) (inst : ExtInstance) :
    Application C Rs × List String :=
  if satisfiesExtension inst then
    ({ app with extensions := dictInsert app.extensions inst.className inst },
      ["initialize " ++ inst.className])
  else (app, [])

/-- The application-level filter wrapping around a selected handler in
Application.__call__ of the source. -/
def appHandle {C Rs : Type} (app : Application C Rs) (ctx : C) (req : Request)
    (h : C → Request → Rs) : Rs :=
  let r2 := app.filters.foldl (fun r fl => fl.before_request ctx r) req
  let res := h ctx r2
  (app.filters.reverse).foldl (fun res fl => fl.after_request ctx r2 res) res

/-- The router loop of Application.__call__: try routers in registration
order, threading the request; the first router whose match yields a
handler is dispatched to; exhaustion raises NotFound with the fixed
detail text. -/
def appGo {C Rs : Type} (app : Application C Rs) (ctx : C) :
    List (Router C Rs) → Request → Except MError Rs
  | [], _ => .error (.notFound "no handler match")
  | router :: rest, req =>
    match Router.matchReq router req with
    | (req', some h) => .ok (appHandle app ctx req' h)
    | (req', none) => appGo app ctx rest req'

/-- Application.__call__ of the source (past the wsgify boundary that
wraps the raw request). -/
def Application.callApp {C Rs : Type} (app : Application C Rs) (ctx : C)
    (req : Request) : Except MError Rs :=
  appGo app ctx app.routers req

/-! ### Concrete fixtures used by the claim theorems and witnesses -/

/-- A router mounted at the root with no domain restriction, no filters
and no routes. -/
def emptyRouter : Router Unit Unit :=
  ⟨"", none, [], []⟩

/-- A root router holding the single given rule with the default method
set and a trivial handler; rule compilation provably succeeds for every
rule this file applies it to. -/
def mkRouter1 (rule : String) : Router Unit Unit :=
  match Router.route emptyRouter rule none (fun _ _ => ()) with
  | .ok rt => rt
  | .error _ => emptyRouter

/-- A GET request for the given path with an empty parameters map. -/
def getReq (path : String) : Request :=
  ⟨"GET", path, "", []⟩

/-! ### Helper lemmas -/

/-- The route loop leaves the request untouched whenever it selects no
handler: the parameters map is assigned only in the branch that also
returns a handler. -/
theorem matchRoutes_none_fst {C Rs : Type} (rt : Router C Rs) :
    ∀ (rs : List (Route C Rs)) (req : Request),
      (matchRoutes rt rs req).2 = none → (matchRoutes rt rs req).1 = req
  | [], _ => fun _ => rfl
  | route :: rest, req => by
    intro h
    unfold matchRoutes at h ⊢
    by_cases hc : route.methods.contains req.method = true
    · rw [if_pos hc] at h ⊢
      cases hm : matchElems route.pattern (replaceFirst req.path rt.pfx).data with
      | some caps => rw [hm] at h; simp at h
      | none => rw [hm] at h; exact matchRoutes_none_fst rt rest req h
    · rw [if_neg hc] at h ⊢
      exact matchRoutes_none_fst rt rest req h

/-- Router.match leaves the request untouched whenever it returns no
handler. -/
theorem matchReq_none_fst {C Rs : Type} (rt : Router C Rs) (req : Request)
    (h : (Router.matchReq rt req).2 = none) : (Router.matchReq rt req).1 = req := by
  unfold Router.matchReq at h ⊢
  by_cases hc : (domainOk rt req && List.isPrefixOf rt.pfx.data req.path.data) = true
  · rw [if_pos hc] at h ⊢
    exact matchRoutes_none_fst rt rt.routes req h
  · rw [if_neg hc]

/-- The router loop of the application raises NotFound with the fixed
detail text once every router of the list fails to match. -/
theorem appGo_none {C Rs : Type} (app : Application C Rs) (ctx : C) :
    ∀ (rs : List (Router C Rs)) (req : Request),
      (∀ r ∈ rs, (Router.matchReq r req).2 = none) →
      appGo app ctx rs req = .error (.notFound "no handler match")
  | [], _ => fun _ => rfl
  | router :: rest, req => by
    intro h
    have h1 : (Router.matchReq router req).2 = none := h router (by simp)
    have h2 : (Router.matchReq router req).1 = req := matchReq_none_fst router req h1
    have hp : Router.matchReq router req = (req, none) := by
      rw [Prod.ext_iff]
      exact ⟨h2, h1⟩
    unfold appGo
    rw [hp]
    exact appGo_none app ctx rest req fun r hr => h r (by simp [hr])

/-! ### Claim theorems -/

/-- Claim C9: whenever Router.match returns the absent result, the
request is left unmodified; its parameters map is assigned only after a
method set and a compiled pattern have both matched. -/
theorem match_miss_leaves_request {C Rs : Type} (rt : Router C Rs) (req : Request)
    (h : (Router.matchReq rt req).2 = none) : (Router.matchReq rt req).1 = req :=
  matchReq_none_fst rt req h

/-- Witness for C9 at a concrete router and request. -/
theorem match_miss_leaves_request_w :
    (Router.matchReq (mkRouter1 "/items/{name}") (getReq "/nope")).2 = none ∧
    (Router.matchReq (mkRouter1 "/items/{name}") (getReq "/nope")).1 = getReq "/nope" :=
  ⟨rfl, match_miss_leaves_request (mkRouter1 "/items/{name}") (getReq "/nope") rfl⟩

/-- Application with one router that matches nothing under /nope. -/
def appMiss : Application Unit Unit :=
  ⟨[mkRouter1 "/items/{name}"], [], []⟩

/-- Claim C8: when no router yields a handler for a request, the
application invocation fails with NotFound and the fixed detail text, and
returns no response. -/
theorem not_found_detail {C Rs : Type} (app : Application C Rs) (ctx : C) (req : Request)
    (h : ∀ r ∈ app.routers, (Router.matchReq r req).2 = none) :
    Application.callApp app ctx req = .error (.notFound "no handler match") :=
  appGo_none app ctx app.routers req h

/-- Witness for C8 at a concrete application and request. -/
theorem not_found_detail_w :
    (∀ r ∈ appMiss.routers, (Router.matchReq r (getReq "/nope")).2 = none) ∧
    Application.callApp appMiss () (getReq "/nope") = .error (.notFound "no handler match") := by
  have h : ∀ r ∈ appMiss.routers, (Router.matchReq r (getReq "/nope")).2 = none := by
    intro r hr
    simp only [appMiss, List.mem_singleton] at hr
    subst hr
    rfl
  exact ⟨h, not_found_detail appMiss () (getReq "/nope") h⟩

/-- Claim C1: a one-character captured portion never satisfies the str
fragment, which needs one non-slash character plus at least one more; the
same one-character portion satisfies the word fragment when it is a word
character; accordingly the rule /items/{name} does not match /items/a
while /items/{name:word} does. -/
theorem str_min_length_vs_word (c : Char) :
    fragAccepts "str" [c] = false ∧
    (wordChar c = true → fragAccepts "word" [c] = true) ∧
    (Router.matchReq (mkRouter1 "/items/{name}") (getReq "/items/a")).2.isSome = false ∧
    (Router.matchReq (mkRouter1 "/items/{name:word}") (getReq "/items/a")).2.isSome = true := by
  refine ⟨?_, ?_, rfl, rfl⟩
  · simp [fragAccepts]
  · intro h
    simp [fragAccepts, h]

/-- Witness for C1 at the character a. -/
theorem str_min_length_vs_word_w :
    wordChar 'a' = true ∧ fragAccepts "word" ['a'] = true :=
  ⟨rfl, (str_min_length_vs_word 'a').2.1 rfl⟩

/-- Claim C7: the rule /items/{id:int} matched against /items/42 with
method GET yields the parameters map id to the integer forty-two, cast by
the per-parameter cast table of the route and overwriting whatever
parameters map the request carried before. -/
theorem int_param_cast (prior : List (String × Value)) :
    (Router.matchReq (mkRouter1 "/items/{id:int}")
      ⟨"GET", "/items/42", "", prior⟩).1.args = [("id", Value.intv 42)] ∧
    (Router.matchReq (mkRouter1 "/items/{id:int}")
      ⟨"GET", "/items/42", "", prior⟩).2.isSome = true :=
  ⟨rfl, rfl⟩

/-- The tags of the capture elements carrying a given parameter name in a
compiled pattern. -/
def capTags (es : List RElem) (n : String) : List String :=
  es.filterMap fun e =>
    match e with
    | .cap m t => if m = n then some t else none
    | .lit _ => none

/-- A capture element contributes its tag to capTags at its name. -/
theorem mem_capTags {es : List RElem} {n t : String} (h : RElem.cap n t ∈ es) :
    t ∈ capTags es n := by
  refine List.mem_filterMap.mpr ⟨RElem.cap n t, h, ?_⟩
  simp

/-- Soundness of the matcher: every captured value was accepted by the
fragment of a capture element carrying its name. -/
theorem matchElemsF_sound :
    ∀ (fuel : Nat) (es : List RElem) (s : List Char) (caps : List (String × String)),
      matchElemsF fuel es s = some caps →
      ∀ n v, (n, v) ∈ caps → ∃ tag, RElem.cap n tag ∈ es ∧ fragAccepts tag v.data = true := by
  intro fuel
  induction fuel with
  | zero =>
    intro es s caps h n v hm
    cases es with
    | nil =>
      simp only [matchElemsF] at h
      split at h
      · cases h
        simp at hm
      · cases h
    | cons e es => cases h
  | succ fuel ih =>
    intro es s caps h n v hm
    cases es with
    | nil =>
      simp only [matchElemsF] at h
      split at h
      · cases h
        simp at hm
      · cases h
    | cons e es =>
      cases e with
      | lit c =>
        simp only [matchElemsF] at h
        cases s with
        | nil => cases h
        | cons x xs =>
          have h' : (if x = c then matchElemsF fuel es xs else none) = some caps := h
          by_cases hx : x = c
          · rw [if_pos hx] at h'
            obtain ⟨tag, ht, hf⟩ := ih es xs caps h' n v hm
            exact ⟨tag, List.mem_cons_of_mem _ ht, hf⟩
          · rw [if_neg hx] at h'
            cases h'
      | cap n' tag' =>
        simp only [matchElemsF] at h
        obtain ⟨l1, k, l2, _, hfk, _⟩ := List.findSome?_eq_some_iff.mp h
        by_cases hacc : fragAccepts tag' (s.take k) = true
        · rw [if_pos hacc] at hfk
          obtain ⟨rest, hrest, hcaps⟩ := Option.map_eq_some'.mp hfk
          rw [← hcaps] at hm
          rcases List.mem_cons.mp hm with hhead | htail
          · obtain ⟨hn, hv⟩ := Prod.mk.injEq .. ▸ hhead
            refine ⟨tag', ?_, ?_⟩
            · rw [← hn]
              exact List.mem_cons_self _ _
            · rw [hv]
              exact hacc
          · obtain ⟨tag, ht, hf⟩ := ih es (s.drop k) rest hrest n v htail
            exact ⟨tag, List.mem_cons_of_mem _ ht, hf⟩
        · rw [if_neg hacc] at hfk
          cases hfk

/-- Counterexample to claim C6 as stated: the rule /x/{name} with the
default type str matches the path /x/a/b, and the value captured for
name is a/b, which spans a path separator. -/
theorem str_capture_spans_slash :
    (Router.matchReq (mkRouter1 "/x/{name}") (getReq "/x/a/b")).2.isSome = true ∧
    (Router.matchReq (mkRouter1 "/x/{name}") (getReq "/x/a/b")).1.args
      = [("name", Value.text "a/b")] ∧
    '/' ∈ ("a/b" : String).data :=
  ⟨rfl, rfl, by decide⟩

/-- Claim C6, amended: for a parameter whose capture elements under its
name all carry the default tag str, any captured value is at least two
characters long and does not begin with a path separator; past its first
character the value may still span separators, so the capture is not
confined to one path segment. -/
theorem str_capture_no_leading_slash (es : List RElem) (s : List Char)
    (caps : List (String × String)) (n v : String)
    (h : matchElems es s = some caps) (hmem : (n, v) ∈ caps)
    (htags : capTags es n = ["str"]) :
    2 ≤ v.length ∧ v.data.head? ≠ some '/' := by
  obtain ⟨tag, hcap, hacc⟩ := matchElemsF_sound es.length es s caps h n v hmem
  have ht : tag = "str" := by
    have hmt := mem_capTags hcap
    rw [htags] at hmt
    simpa using hmt
  subst ht
  cases hd : v.data with
  | nil =>
    rw [hd] at hacc
    cases hacc
  | cons c rest =>
    rw [hd] at hacc
    have hacc' : ((c != '/' && !rest.isEmpty) && rest.all fun d => d != '\n') = true := hacc
    rw [Bool.and_eq_true, Bool.and_eq_true] at hacc'
    obtain ⟨⟨hc, hre⟩, _⟩ := hacc'
    constructor
    · have hl : v.length = v.data.length := rfl
      rw [hl, hd]
      cases rest with
      | nil => cases hre
      | cons r rs => simp
    · simp only [List.head?, ne_eq, Option.some.injEq]
      intro hcs
      rw [hcs] at hc
      simp at hc

/-- Witness for the amended C6 at a concrete compiled pattern. -/
theorem str_capture_no_leading_slash_w :
    2 ≤ ("ab" : String).length ∧ ("ab" : String).data.head? ≠ some '/' :=
  str_capture_no_leading_slash [RElem.lit '/', RElem.cap "name" "str"] "/ab".data
    [("name", "ab")] "name" "ab" (by decide) (by decide) (by decide)

/-- Label recorded when the before hook of the i-th trace filter runs. -/
def beforeMark (i : Nat) : String :=
  "before " ++ toString i

/-- Label recorded when the after hook of the i-th trace filter runs. -/
def afterMark (i : Nat) : String :=
  "after " ++ toString i

/-- A filter that records its before hook in the parameters map of the
request it threads onward and its after hook in the response. -/
def traceFilter (i : Nat) : Filter Unit Request (List String) :=
  ⟨true,
    fun _ r => { r with args := r.args ++ [("t", Value.text (beforeMark i))] },
    fun _ _ resp => resp ++ [afterMark i]⟩

/-- The text entries of a parameters map. -/
def argTexts (l : List (String × Value)) : List String :=
  l.filterMap fun p =>
    match p.2 with
    | .text s => some s
    | _ => none

/-- A handler that reports the trace it received through the request and
records its own run. -/
def traceHandler : Unit → Request → List String :=
  fun _ r => argTexts r.args ++ ["H"]

/-- A root router carrying the first n trace filters in index order. -/
def traceRouter (n : Nat) : Router Unit (List String) :=
  ⟨"", none, (List.range n).map traceFilter, []⟩

/-- Folding the before hooks of trace filters appends their labels to the
parameters map in list order. -/
theorem traceFilter_before_fold (l : List Nat) :
    ∀ req : Request,
      (l.map traceFilter).foldl (fun r fl => fl.before_request () r) req
        = { req with args := req.args ++ l.map fun i => ("t", Value.text (beforeMark i)) } := by
  induction l with
  | nil => intro req; simp
  | cons i is ih =>
    intro req
    simp only [List.map_cons, List.foldl_cons]
    rw [ih]
    simp [traceFilter]

/-- Folding the after hooks of trace filters appends their labels to the
response in list order. -/
theorem traceFilter_after_fold (l : List Nat) :
    ∀ (resp : List String) (r : Request),
      (l.map traceFilter).foldl (fun resp fl => fl.after_request () r resp) resp
        = resp ++ l.map afterMark := by
  induction l with
  | nil => intro resp r; simp
  | cons i is ih =>
    intro resp r
    simp only [List.map_cons, List.foldl_cons]
    rw [ih]
    simp [traceFilter]

/-- The text entries of a pure trace parameters map are its labels. -/
theorem argTexts_marks (l : List Nat) :
    argTexts (l.map fun i => ("t", Value.text (beforeMark i))) = l.map beforeMark := by
  induction l with
  | nil => rfl
  | cons i is ih => simp [argTexts] at ih ⊢; exact ih

/-- Claim C4: with n filters registered in index order wrapping a
handler, invoking the wrapped handler runs every before hook in
registration order threading the replaced request into the next filter
and finally into the handler, then runs every after hook in reverse
registration order threading the response, and returns the final
response. -/
theorem filter_chain_order (n : Nat) :
    Router.applyFilterFn (traceRouter n) traceHandler () (getReq "")
      = ((List.range n).map beforeMark) ++ ["H"]
        ++ ((List.range n).reverse.map afterMark) := by
  unfold Router.applyFilterFn traceRouter
  simp only
  rw [traceFilter_before_fold]
  rw [← List.map_reverse, traceFilter_after_fold]
  simp [traceHandler, getReq, argTexts_marks]

/-- The route loop skips every route whose method set or pattern fails
and selects the first route passing both, assigning its cast captures. -/
theorem matchRoutes_first {C Rs : Type} (rt : Router C Rs) :
    ∀ (rs1 : List (Route C Rs)) (r : Route C Rs) (rs2 : List (Route C Rs))
      (req : Request) (caps : List (String × String)),
      (∀ r' ∈ rs1, r'.methods.contains req.method = false ∨
        matchElems r'.pattern (replaceFirst req.path rt.pfx).data = none) →
      r.methods.contains req.method = true →
      matchElems r.pattern (replaceFirst req.path rt.pfx).data = some caps →
      matchRoutes rt (rs1 ++ r :: rs2) req =
        ({ req with args := caps.map fun p => (p.1, castsApply r.casts p.1 p.2) },
          some (Router.applyFilterFn rt r.handler))
  | [], r, rs2, req, caps => by
    intro _ hm hcaps
    simp only [List.nil_append]
    unfold matchRoutes
    rw [if_pos hm, hcaps]
  | r' :: rs1, r, rs2, req, caps => by
    intro hskip hm hcaps
    have hrec := matchRoutes_first rt rs1 r rs2 req caps
      (fun x hx => hskip x (by simp [hx])) hm hcaps
    simp only [List.cons_append]
    unfold matchRoutes
    rcases hskip r' (by simp) with hc | he
    · rw [hc]
      simp only [Bool.false_eq_true, if_false]
      exact hrec
    · by_cases hc : r'.methods.contains req.method = true
      · rw [if_pos hc, he]
        exact hrec
      · rw [if_neg hc]
        exact hrec

/-- The router loop of the application skips the routers that match
nothing and dispatches through the first that yields a handler. -/
theorem appGo_skip {C Rs : Type} (app : Application C Rs) (ctx : C) :
    ∀ (pre : List (Router C Rs)) (rt' : Router C Rs) (post : List (Router C Rs))
      (req : Request) (h : C → Request → Rs),
      (∀ r ∈ pre, (Router.matchReq r req).2 = none) →
      (Router.matchReq rt' req).2 = some h →
      appGo app ctx (pre ++ rt' :: post) req
        = .ok (appHandle app ctx (Router.matchReq rt' req).1 h)
  | [], rt', post, req, h => by
    intro _ h2
    have hp : Router.matchReq rt' req = ((Router.matchReq rt' req).1, some h) := by
      rw [Prod.ext_iff]
      exact ⟨rfl, h2⟩
    simp only [List.nil_append]
    unfold appGo
    rw [hp]
  | router :: pre, rt', post, req, h => by
    intro h1 h2
    have hn : (Router.matchReq router req).2 = none := h1 router (by simp)
    have hfst : (Router.matchReq router req).1 = req := matchReq_none_fst router req hn
    have hp : Router.matchReq router req = (req, none) := by
      rw [Prod.ext_iff]
      exact ⟨hfst, hn⟩
    simp only [List.cons_append]
    unfold appGo
    rw [hp]
    exact appGo_skip app ctx pre rt' post req h (fun x hx => h1 x (by simp [hx])) h2

/-- Claim C5: dispatch follows registration order with the first match
winning at both levels.  At the router level the earliest-registered
route whose method set and pattern both pass is the one whose wrapped
handler Router.match returns; at the application level invocation skips
every router whose match yields no handler and dispatches through the
first router whose match yields one. -/
theorem first_match_wins {C Rs : Type} :
    (∀ (rt : Router C Rs) (rs1 : List (Route C Rs)) (r : Route C Rs)
        (rs2 : List (Route C Rs)) (req : Request) (caps : List (String × String)),
      rt.routes = rs1 ++ r :: rs2 →
      domainOk rt req = true →
      List.isPrefixOf rt.pfx.data req.path.data = true →
      (∀ r' ∈ rs1, r'.methods.contains req.method = false ∨
        matchElems r'.pattern (replaceFirst req.path rt.pfx).data = none) →
      r.methods.contains req.method = true →
      matchElems r.pattern (replaceFirst req.path rt.pfx).data = some caps →
      (Router.matchReq rt req).2 = some (Router.applyFilterFn rt r.handler)) ∧
    (∀ (app : Application C Rs) (ctx : C) (pre : List (Router C Rs))
        (rt' : Router C Rs) (post : List (Router C Rs)) (req : Request)
        (h : C → Request → Rs),
      app.routers = pre ++ rt' :: post →
      (∀ r ∈ pre, (Router.matchReq r req).2 = none) →
      (Router.matchReq rt' req).2 = some h →
      Application.callApp app ctx req
        = .ok (appHandle app ctx (Router.matchReq rt' req).1 h)) := by
  constructor
  · intro rt rs1 r rs2 req caps hroutes hdom hpfx hskip hm hcaps
    unfold Router.matchReq
    have hcond : (domainOk rt req && List.isPrefixOf rt.pfx.data req.path.data) = true := by
      rw [hdom, hpfx]
      rfl
    rw [if_pos hcond, hroutes, matchRoutes_first rt rs1 r rs2 req caps hskip hm hcaps]
  · intro app ctx pre rt' post req h hrouters hpre hmatch
    unfold Application.callApp
    rw [hrouters]
    exact appGo_skip app ctx pre rt' post req h hpre hmatch

/-- A compiled pattern capturing one any-typed parameter after a slash. -/
def capAnyName : List RElem :=
  [RElem.lit '/', RElem.cap "name" "any"]

/-- A route on that pattern restricted to POST. -/
def routeP : Route Unit Unit :=
  ⟨capAnyName, ["POST"], [("name", "any")], fun _ _ => ()⟩

/-- A route on the same pattern with the default method set. -/
def routeG : Route Unit Unit :=
  ⟨capAnyName, defaultMethods, [("name", "any")], fun _ _ => ()⟩

/-- A router holding both routes, the POST-restricted one first. -/
def rtTwo : Router Unit Unit :=
  ⟨"", none, [], [routeP, routeG]⟩

/-- An application holding a router for /a before a router for /b. -/
def appAB : Application Unit Unit :=
  ⟨[mkRouter1 "/a", mkRouter1 "/b"], [], []⟩

/-- Witness for C5: at the router level a GET request skips the earlier
POST-only route and selects the later one; at the application level a
request for /b skips the router for /a and dispatches through the router
for /b. -/
theorem first_match_wins_w :
    (Router.matchReq rtTwo (getReq "/x")).2
        = some (Router.applyFilterFn rtTwo routeG.handler) ∧
    Application.callApp appAB () (getReq "/b")
        = .ok (appHandle appAB ()
            (Router.matchReq (mkRouter1 "/b") (getReq "/b")).1
            (Router.applyFilterFn (mkRouter1 "/b") fun _ _ => ())) := by
  constructor
  · refine (first_match_wins).1 rtTwo [routeP] routeG [] (getReq "/x") [("name", "x")]
      rfl rfl rfl ?_ (by decide) (by decide)
    intro r' hr'
    simp only [List.mem_singleton] at hr'
    subst hr'
    left
    decide
  · refine (first_match_wins).2 appAB () [mkRouter1 "/a"] (mkRouter1 "/b") []
      (getReq "/b") (Router.applyFilterFn (mkRouter1 "/b") fun _ _ => ()) rfl ?_ rfl
    intro r hr
    simp only [List.mem_singleton] at hr
    subst hr
    rfl

/-- Looking up the key just inserted yields the inserted value. -/
theorem dictGet_dictInsert {β : Type} (k : String) (v : β) :
    ∀ m : List (String × β), dictGet (dictInsert m k v) k = some v
  | [] => by simp [dictInsert, dictGet]
  | (k', v') :: rest => by
    by_cases hk : k' = k
    · simp [dictInsert, dictGet, hk]
    · simp [dictInsert, dictGet, hk, dictGet_dictInsert k v rest]

/-- Two inserts under the same key collapse to the second: the earlier
value is replaced, never kept alongside. -/
theorem dictInsert_dictInsert {β : Type} (k : String) (a b : β) :
    ∀ m : List (String × β), dictInsert (dictInsert m k a) k b = dictInsert m k b
  | [] => by simp [dictInsert]
  | (k', v') :: rest => by
    by_cases hk : k' = k
    · simp [dictInsert, hk]
    · simp [dictInsert, hk, dictInsert_dictInsert k a b rest]

/-- Claim C2: register_extension invokes the one-time initialization of
the instance exactly once and stores it in the extension registry keyed
by its concrete type name, replacing any previous holder of that key,
exactly when the instance satisfies the Extension protocol; an instance
that does not satisfy the protocol is silently ignored, with no error and
the registry unchanged.  The protocol test is modelled from the spec
because module m.ext is not among the sources. -/
theorem register_extension_protocol {C Rs : Type} (app : Application C Rs)
    (inst i2 : ExtInstance) :
    (satisfiesExtension inst = true →
      registerExtension app inst
        = ({ app with extensions := dictInsert app.extensions inst.className inst },
            ["initialize " ++ inst.className]) ∧
      dictGet (dictInsert app.extensions inst.className inst) inst.className = some inst) ∧
    (satisfiesExtension inst = false → registerExtension app inst = (app, [])) ∧
    (satisfiesExtension inst = true → satisfiesExtension i2 = true →
      i2.className = inst.className →
      ((registerExtension (registerExtension app inst).1 i2).1).extensions
        = dictInsert app.extensions inst.className i2) := by
  refine ⟨?_, ?_, ?_⟩
  · intro hs
    refine ⟨?_, dictGet_dictInsert inst.className inst app.extensions⟩
    unfold registerExtension
    rw [if_pos hs]
  · intro hs
    unfold registerExtension
    rw [hs]
    rfl
  · intro h1 h2 hcn
    unfold registerExtension
    rw [if_pos h1, if_pos h2]
    simp only [hcn]
    exact dictInsert_dictInsert inst.className inst i2 app.extensions

/-- Witness for C2: a protocol-satisfying instance on an empty registry. -/
theorem register_extension_protocol_w :
    registerExtension (⟨[], [], []⟩ : Application Unit Unit) ⟨"Foo", true⟩
      = ((⟨[], [], [("Foo", ⟨"Foo", true⟩)]⟩ : Application Unit Unit), ["initialize Foo"]) :=
  ((register_extension_protocol (⟨[], [], []⟩ : Application Unit Unit)
    ⟨"Foo", true⟩ ⟨"Foo", true⟩).1 rfl).1

/-- A hook-carrying object that is not a Filter instance. -/
def badFilter : Filter Unit Request Unit :=
  ⟨false, fun _ r => r, fun _ _ s => s⟩

/-- The constructor validation accepts a list of Filter instances
unchanged. -/
theorem initFilters_ok {C Rq Rs : Type} :
    ∀ fls : List (Filter C Rq Rs),
      (∀ f ∈ fls, f.isFilterInstance = true) → initFilters fls = .ok fls
  | [] => fun _ => rfl
  | fl :: rest => by
    intro h
    unfold initFilters
    rw [if_pos (h fl (by simp)), initFilters_ok rest fun f hf => h f (by simp [hf])]
    rfl

/-- Claim C10: add_filter and the before and after convenience
registrations append to the filter list of the router unconditionally,
with no Filter-capability check and no failure for any argument; the
InvalidFilter validation exists only for the filters option of the
Router constructor. -/
theorem add_filter_unchecked {C Rs : Type} (rt : Router C Rs)
    (fl : Filter C Request Rs) (fn : C → Request → Request)
    (gn : C → Request → Rs → Rs) (p : String) (dom : Option (String → Bool))
    (fls : List (Filter C Request Rs)) :
    (Router.add_filter rt fl).filters = rt.filters ++ [fl] ∧
    (Router.before_request rt fn).filters
      = rt.filters ++ [⟨true, fn, fun _ _ s => s⟩] ∧
    (Router.after_request rt gn).filters
      = rt.filters ++ [⟨true, fun _ r => r, gn⟩] ∧
    (fl.isFilterInstance = false →
      routerInit p dom (fl :: fls) = .error .invalidFilter) ∧
    ((∀ f ∈ fls, f.isFilterInstance = true) →
      routerInit p dom fls = .ok ⟨p, dom, fls, []⟩) := by
  refine ⟨rfl, rfl, rfl, ?_, ?_⟩
  · intro hf
    unfold routerInit initFilters
    rw [hf]
    rfl
  · intro h
    unfold routerInit
    rw [initFilters_ok fls h]
    rfl

/-- Witness for C10: appending a non-Filter object succeeds while the
constructor rejects the same object. -/
theorem add_filter_unchecked_w :
    (Router.add_filter emptyRouter badFilter).filters
      = emptyRouter.filters ++ [badFilter] ∧
    routerInit "" none [badFilter] = .error .invalidFilter := by
  have h := add_filter_unchecked emptyRouter badFilter (fun _ r => r) (fun _ _ s => s)
    "" none ([] : List (Filter Unit Request Unit))
  exact ⟨h.1, h.2.2.2.1 rfl⟩

/-- The colon split always produces at least one part. -/
theorem splitColon_ne_nil : ∀ l : List Char, splitColon l ≠ []
  | [] => by simp [splitColon]
  | c :: rest => by
    unfold splitColon
    by_cases hc : c = ':'
    · rw [if_pos hc]
      simp
    · rw [if_neg hc]
      cases splitColon rest with
      | nil => simp
      | cons h t => simp

/-- The pattern table and the cast table are defined on the same tags. -/
theorem patterns_casts_isSome (t : String) : (PATTERNS t).isSome = (CASTS t).isSome := by
  unfold PATTERNS CASTS
  split_ifs <;> rfl

/-- The scanning loop succeeds once every specification it extracts
parses. -/
theorem scan_ok : ∀ (cs : List Char) (isSp : Bool) (sa : List Char)
    (pat : List RElem) (casts : List (String × String)),
    (∀ s ∈ scanSpecs cs isSp sa, exceptIsOk (specParse s) = true) →
    exceptIsOk (scan cs isSp sa pat casts) = true
  | [], _, _, _, _ => fun _ => rfl
  | c :: rest, isSp, sa, pat, casts => by
    intro h
    by_cases h1 : isSp = false ∧ c = '{'
    · have h' : ∀ s ∈ scanSpecs rest true sa, exceptIsOk (specParse s) = true := by
        intro s hs
        apply h
        unfold scanSpecs
        rw [if_pos h1]
        exact hs
      unfold scan
      rw [if_pos h1]
      exact scan_ok rest true sa pat casts h'
    · by_cases h2 : isSp = true ∧ c = '}'
      · have hmem : String.mk sa ∈ scanSpecs (c :: rest) isSp sa := by
          unfold scanSpecs
          rw [if_neg h1, if_pos h2]
          simp
        have hs := h _ hmem
        unfold scan
        rw [if_neg h1, if_pos h2]
        cases hsp : specParse (String.mk sa) with
        | error e =>
          rw [hsp] at hs
          simp [exceptIsOk] at hs
        | ok nt =>
          obtain ⟨name, tag⟩ := nt
          refine scan_ok rest false [] (pat ++ [.cap name tag])
            (dictInsert casts name tag) ?_
          intro s hsm
          apply h
          unfold scanSpecs
          rw [if_neg h1, if_pos h2]
          simp [hsm]
      · by_cases h3 : isSp = true
        · have h' : ∀ s ∈ scanSpecs rest true (sa ++ [c]), exceptIsOk (specParse s) = true := by
            intro s hs
            apply h
            unfold scanSpecs
            rw [if_neg h1, if_neg h2, if_pos h3]
            exact hs
          unfold scan
          rw [if_neg h1, if_neg h2, if_pos h3]
          exact scan_ok rest true (sa ++ [c]) pat casts h'
        · have h' : ∀ s ∈ scanSpecs rest false sa, exceptIsOk (specParse s) = true := by
            intro s hs
            apply h
            unfold scanSpecs
            rw [if_neg h1, if_neg h2, if_neg h3]
            exact hs
          unfold scan
          rw [if_neg h1, if_neg h2, if_neg h3]
          exact scan_ok rest false sa (pat ++ [.lit c]) casts h'

/-- Claim C3: rule compilation fails at route-registration time, never
per request: a specification with more than one type separator fails with
MalformedRouteRule, a specification naming a tag outside the fixed
registry fails with UnknownParameterType, a well-formed rule naming only
known tags registers with neither error, and route registration errors
exactly when rule compilation does. -/
theorem rule_errors_at_registration {C Rs : Type} (src rule : String)
    (rt : Router C Rs) (mo : Option (List String)) (hd : C → Request → Rs) :
    (2 < (splitSep src).length → specParse src = .error .malformedRouteRule) ∧
    (∀ n t, splitSep src = [n, t] → PATTERNS t = none →
      specParse src = .error .unknownParameterType) ∧
    ((splitSep src).length ≤ 2 → (PATTERNS (specTag src)).isSome = true →
      exceptIsOk (specParse src) = true) ∧
    (∀ e, Router.route rt rule mo hd = .error e ↔ ruleParse rule = .error e) ∧
    ((∀ s ∈ ruleSpecs rule, exceptIsOk (specParse s) = true) →
      exceptIsOk (Router.route rt rule mo hd) = true) := by
  refine ⟨?_, ?_, ?_, ?_, ?_⟩
  · intro h
    unfold specParse
    cases hs : splitSep src with
    | nil => rfl
    | cons a l1 =>
      cases l1 with
      | nil =>
        rw [hs] at h
        simp at h
      | cons b l2 =>
        cases l2 with
        | nil =>
          rw [hs] at h
          simp at h
        | cons x l3 => rfl
  · intro n t hs hp
    unfold specParse
    rw [hs]
    show (if ((PATTERNS t).isSome && (CASTS t).isSome) = true
        then (Except.ok (n, t) : Except MError (String × String))
        else .error .unknownParameterType) = .error .unknownParameterType
    have hcond : ((PATTERNS t).isSome && (CASTS t).isSome) = false := by
      rw [hp]
      simp
    rw [if_neg (by simp [hcond])]
  · intro hlen hp
    unfold specParse
    cases hs : splitSep src with
    | nil => exact absurd (List.map_eq_nil_iff.mp hs) (splitColon_ne_nil src.data)
    | cons a l1 =>
      cases l1 with
      | nil => rfl
      | cons b l2 =>
        cases l2 with
        | nil =>
          have ht : specTag src = b := by
            unfold specTag
            rw [hs]
          rw [ht] at hp
          show exceptIsOk (if ((PATTERNS b).isSome && (CASTS b).isSome) = true
              then (Except.ok (a, b) : Except MError (String × String))
              else .error .unknownParameterType) = true
          have hcond : ((PATTERNS b).isSome && (CASTS b).isSome) = true := by
            rw [← patterns_casts_isSome, hp]
            rfl
          rw [if_pos hcond]
          rfl
        | cons x l3 =>
          rw [hs] at hlen
          simp only [List.length_cons] at hlen
          omega
  · intro e
    cases hr : ruleParse rule with
    | error e' =>
      have hroute : Router.route rt rule mo hd = .error e' := by
        unfold Router.route
        rw [hr]
      constructor
      · intro hh
        rw [hroute] at hh
        cases hh
        rfl
      · intro hh
        cases hh
        exact hroute
    | ok pc =>
      obtain ⟨pat, casts⟩ := pc
      have hroute : Router.route rt rule mo hd
          = .ok { rt with routes := rt.routes
              ++ [⟨pat, mo.getD defaultMethods, casts, hd⟩] } := by
        unfold Router.route
        rw [hr]
      constructor
      · intro hh
        rw [hroute] at hh
        cases hh
      · intro hh
        cases hh
  · intro h
    have hok : exceptIsOk (ruleParse rule) = true := scan_ok rule.data false [] [] [] h
    unfold Router.route
    cases hr : ruleParse rule with
    | error e =>
      rw [hr] at hok
      simp [exceptIsOk] at hok
    | ok pc =>
      obtain ⟨pat, casts⟩ := pc
      rfl

/-- Witness for C3 at concrete specifications and rules. -/
theorem rule_errors_at_registration_w :
    specParse "a:b:c" = .error .malformedRouteRule ∧
    specParse "a:zzz" = .error .unknownParameterType ∧
    exceptIsOk (specParse "a:int") = true ∧
    Router.route emptyRouter "{a:b:c}" none (fun _ _ => ()) = .error .malformedRouteRule ∧
    exceptIsOk (Router.route emptyRouter "/items/{name}" none fun _ _ => ()) = true := by
  refine ⟨?_, ?_, ?_, ?_, ?_⟩
  · exact (rule_errors_at_registration "a:b:c" "" emptyRouter none fun _ _ => ()).1
      (by decide)
  · exact (rule_errors_at_registration "a:zzz" "" emptyRouter none fun _ _ => ()).2.1
      "a" "zzz" (by decide) (by decide)
  · exact (rule_errors_at_registration "a:int" "" emptyRouter none fun _ _ => ()).2.2.1
      (by decide) (by decide)
  · exact ((rule_errors_at_registration "" "{a:b:c}" emptyRouter none
      fun _ _ => ()).2.2.2.1 .malformedRouteRule).mpr rfl
  · exact (rule_errors_at_registration "" "/items/{name}" emptyRouter none
      fun _ _ => ()).2.2.2.2 (by decide)

end M
